import Mathlib

/-!
# SL-Scene-Builder: verification of the compile/export pipeline

Shallow embedding of `src-tauri/src/define/project.rs` and
`src-tauri/src/define/serialize.rs` from the SL-Scene-Builder repository,
together with proofs about the binary codec, the FNIS line generator, the
race grouping / deduplication loop of `Project::build`, and the legacy
SLAL importer `Project::from_slal`.

Rust machine types are modelled as follows: byte buffers (`Vec<u8>`) are
`List Nat` with every element reduced mod 256 at the point where the code
truncates; `u64`/`i32` wrap-around is written explicitly with `% 2^64` /
`% 2^32`; fallible code returns `Except` and a Rust `panic!`/`unwrap`
failure is the distinguished error constructor `RErr.panicked`.

Types that live in repository files not present under `src/`
(`scene.rs`, `stage.rs`, `position.rs`, `mod.rs`, `racekeys.rs`) are
modelled from the spec and carry a doc comment saying so.
-/

namespace SLSB

/-- Errors produced by the embedded code.  `msg` is a typed `Err(String)`
return value of the Rust code; `panicked` models a Rust `panic!` or a
failed `unwrap` (process abort, not a typed error). -/
inductive RErr where
  | msg (s : String)
  | panicked (s : String)
  deriving Repr, DecidableEq

/-- Modelled from the spec: `NanoID` (defined in the repository's
`define/mod.rs`, not under `src/`) is a string identifier. -/
abbrev NanoID := String

/-- Modelled from the spec: `PREFIX_HASH_LEN`, the fixed process-wide
length of the namespace token (`define/mod.rs` is not under `src/`, so
the exact constant is unknown; the proofs only use that `get_byte_size`
and the data-model invariant mention the same constant). -/
def PFX_HASH_LEN : Nat := 8

/-- Modelled from the spec: the `Sex` flags structure of
`define/position.rs` (not under `src/`): three independent booleans. -/
structure Sex where
  male : Bool
  female : Bool
  futa : Bool
  deriving Repr, DecidableEq

instance : Inhabited Sex := ⟨⟨false, false, false⟩⟩

/-- Modelled from the spec: per-position extra metadata; the part the
compile pipeline reads is the climax flag. -/
structure PositionExtra where
  climax : Bool
  deriving Repr, DecidableEq

instance : Inhabited PositionExtra := ⟨⟨false⟩⟩

/-- Modelled from the spec: `Position` (`define/position.rs`, not under
`src/`): ordered event list, sex flags, race-key string, comma-separated
companion-object string, extra metadata. -/
structure Position where
  event : List String
  sex : Sex
  race : String
  anim_obj : String
  extra : PositionExtra
  deriving Repr, DecidableEq

instance : Inhabited Position :=
  ⟨⟨[], default, "", "", default⟩⟩

/-- Modelled from the spec: per-stage extra metadata holding the
fixed-length timer (zero means variable length).  The Rust field is an
`f32`; the pipeline only ever compares it with `0.0` and copies it, so it
is modelled as an integer. -/
structure StageExtra where
  fixed_len : Int
  deriving Repr, DecidableEq

instance : Inhabited StageExtra := ⟨⟨0⟩⟩

/-- Modelled from the spec: `Stage` (`define/stage.rs`, not under
`src/`): unique id, positions (one per actor), tags, extra metadata. -/
structure Stage where
  id : NanoID
  positions : List Position
  tags : List String
  extra : StageExtra
  deriving Repr, DecidableEq

/-- Modelled from the spec: a stage-graph node: ordered list of
destination stage ids (empty for terminal nodes). -/
structure Node where
  dest : List NanoID
  deriving Repr, DecidableEq

instance : Inhabited Node := ⟨⟨[]⟩⟩

/-- Modelled from the spec: `Scene` (`define/scene.rs`, not under
`src/`).  The scene's own binary record (its `EncodeBinary` impl lives in
`scene.rs`, not under `src/`) is modelled per the spec's two-phase
contract as an opaque byte list `enc`: `write_byte` appends exactly
`enc`, and `get_byte_size` returns `enc.length`. -/
structure Scene where
  id : NanoID
  name : String
  has_warnings : Bool
  stages : List Stage
  graph : List (NanoID × Node)
  root : NanoID
  enc : List Nat
  deriving Repr, DecidableEq

/-- `Project` from `define/project.rs` (the `pack_path` field is not read
by the compile pipeline and is omitted).  The `scenes` HashMap is
modelled as an association list; its order models the map's unspecified
iteration order.  `prefix_hash` is renamed `pfxHash`. -/
structure Project where
  pack_name : String
  pack_author : String
  pfxHash : String
  scenes : List (NanoID × Scene)
  deriving Repr, DecidableEq

/-! ## serialize.rs : byte-level helpers and `EncodeBinary` -/

/-- UTF-8 bytes of a string, as `Nat`s: Rust `str::as_bytes` (the same
byte sequence `String.toUTF8` builds, written via the character-level
encoder so that it reduces). -/
def strBytes (s : String) : List Nat :=
  (s.data.flatMap String.utf8EncodeChar).map (fun b => b.toNat)

/-- Rust `String::len` — the UTF-8 byte count. -/
def strLen (s : String) : Nat := (strBytes s).length

/-- Big-endian bytes of `n as u64` (`u64::to_be_bytes`). -/
def u64be (n : Nat) : List Nat :=
  let m := n % 2 ^ 64
  [m / 2 ^ 56 % 256, m / 2 ^ 48 % 256, m / 2 ^ 40 % 256, m / 2 ^ 32 % 256,
   m / 2 ^ 24 % 256, m / 2 ^ 16 % 256, m / 2 ^ 8 % 256, m % 256]

/-- Big-endian bytes of an `i32` (`i32::to_be_bytes`), two's complement. -/
def i32be (n : Int) : List Nat :=
  let m := (n % 2 ^ 32).toNat
  [m / 2 ^ 24 % 256, m / 2 ^ 16 % 256, m / 2 ^ 8 % 256, m % 256]

/-- The `Offset` struct of `serialize.rs`.  The Rust fields are `f32`;
they are modelled as rationals, which keeps the `* 1000` / `round` /
`as i32` quantization exact. -/
structure Offset where
  x : Rat
  y : Rat
  z : Rat
  r : Rat
  deriving Repr, DecidableEq

/-- `Offset::get_byte_size`: `4 * size_of::<f32>()`. -/
def Offset.get_byte_size (_ : Offset) : Nat := 4 * 4

/-- `Offset::write_byte`: each field is multiplied by 1000, rounded, cast
to `i32` and appended big-endian. -/
def Offset.write_byte (o : Offset) (buf : List Nat) : List Nat :=
  buf ++ i32be (round (o.x * 1000)) ++ i32be (round (o.y * 1000))
      ++ i32be (round (o.z * 1000)) ++ i32be (round (o.r * 1000))

/-- `make_fnis_line` of `serialize.rs`.  `serialize.rs` declares the
companion-object argument as a `&str` while the call sites in
`project.rs` pass the split-and-filtered `Vec<String>`; per the spec the
objects are joined back with spaces in the emitted line, so the argument
is the list and the line interpolates the space-joined form (empty list =
empty `anim_obj`). -/
def make_fnis_line (anim_type event hash options : String)
    (anim_obj : List String) : String :=
  anim_type
    ++ (if options = "" ∧ anim_obj = [] then ""
        else " -" ++ (if anim_obj = [] then "" else "o,") ++ options)
    ++ " " ++ hash ++ event ++ " " ++ event ++ ".hkx"
    ++ (if anim_obj ≠ [] then " " ++ String.intercalate " " anim_obj else "")

/-- `make_fnis_lines` of `serialize.rs`. -/
def make_fnis_lines (events : List String) (hash : String)
    (fixed_len : Bool) (anim_obj : List String) : List String :=
  if h : events.length = 1 then
    [make_fnis_line "b" (events.get ⟨0, by omega⟩) hash
      (if fixed_len then "a" else "") anim_obj]
  else
    events.enum.map (fun p =>
      make_fnis_line (if p.1 = 0 then "s" else "+") p.2 hash
        (if p.1 = 0 then "a"
         else if fixed_len ∧ p.1 = events.length - 1 then "a,Tn"
         else "")
        anim_obj)

/-! ## `EncodeBinary for Project` (project.rs lines 503–541) -/

/-- `Project::get_byte_size`: name + author byte lengths, three `u64`s,
the fixed-length namespace token, the version byte, plus the sizes of all
non-warned scenes. -/
def Project.get_byte_size (p : Project) : Nat :=
  strLen p.pack_author + strLen p.pack_name + 3 * 8 + PFX_HASH_LEN + 1 +
    ((p.scenes.filter (fun e => ¬ e.2.has_warnings)).map
      (fun e => e.2.enc.length)).sum

/-- One iteration of the scene loop of `Project::write_byte`: skip a
warned scene, `panic!("Empty Scene whilst building files")` (modelled as
`none`) on a non-warned scene with no stages, otherwise append the
scene's record. -/
def writeSceneStep (acc : Option (List Nat)) (e : NanoID × Scene) :
    Option (List Nat) :=
  match acc with
  | none => none
  | some b =>
    if e.2.has_warnings then some b
    else if e.2.stages.length = 0 then none
    else some (b ++ e.2.enc)

/-- The header bytes of `Project::write_byte`: version byte 3,
length-prefixed name and author, raw namespace token, and `scenes.len()`
(the total map size) as a big-endian `u64`. -/
def Project.headerBytes (p : Project) (buf : List Nat) : List Nat :=
  buf ++ [3]
    ++ u64be (strLen p.pack_name) ++ strBytes p.pack_name
    ++ u64be (strLen p.pack_author) ++ strBytes p.pack_author
    ++ strBytes p.pfxHash
    ++ u64be p.scenes.length

/-- `Project::write_byte`: header, then each non-warned scene's record;
a non-warned scene with an empty stage list is a panic, modelled as
`none`. -/
def Project.write_byte (p : Project) (buf : List Nat) : Option (List Nat) :=
  p.scenes.foldl writeSceneStep (some (p.headerBytes buf))

/-! ## `Project::build`, FNIS section (project.rs lines 332–411)

The filesystem writes are outside the embedding; what is embedded is the
computation of the `events` map (`HashMap<RaceKey, Vec<String>>`,
modelled as an association list in insertion order — the map's iteration
order is unspecified in Rust) and the `control` set
(`HashSet<&str>`, modelled as a list). -/

/-- State of the FNIS loop: the per-race line groups and the control set
of already-expanded first-event identifiers. -/
structure BuildSt where
  events : List (String × List String)
  control : List String
  deriving Repr, DecidableEq

/-- `HashSet::from(["__BLANK__", "__DEFAULT__"])`: the initial control
set, pre-seeded with the two sentinel identifiers. -/
def initControl : List String := ["__BLANK__", "__DEFAULT__"]

/-- `events.entry(race).and_modify(|l| l.append(lines)).or_insert(lines)`:
append to an existing group, or add a new group. -/
def mapInsert (m : List (String × List String)) (race : String)
    (lines : List String) : List (String × List String) :=
  if m.any (fun e => e.1 = race) then
    m.map (fun e => if e.1 = race then (e.1, e.2 ++ lines) else e)
  else
    m ++ [(race, lines)]

/-- Character-level comma split (Rust `str::split(',')`), written by
structural recursion so that it evaluates definitionally. -/
def splitCommaAux : List Char → List (List Char)
  | [] => [[]]
  | c :: rest =>
    if c = ',' then [] :: splitCommaAux rest
    else
      match splitCommaAux rest with
      | h :: t => (c :: h) :: t
      | [] => [[c]]

/-- `position.anim_obj.split(',').fold(...)`: split the comma-separated
companion-object string, discarding empty segments. -/
def animObjList (s : String) : List String :=
  ((splitCommaAux s.data).map (fun l => String.mk l)).filter
    (fun x => ¬ x = "")

/-- The `lines` computed for one position in `Project::build`: the
`UD_WORKAROUND` environment toggle (modelled as the boolean `udW`)
prepends a blank-namespace duplicate of the line set. -/
def positionLines (udW : Bool) (hash : String) (fixedLen : Bool)
    (pos : Position) : List String :=
  if udW then
    make_fnis_lines pos.event "" fixedLen (animObjList pos.anim_obj)
      ++ make_fnis_lines pos.event hash fixedLen (animObjList pos.anim_obj)
  else
    make_fnis_lines pos.event hash fixedLen (animObjList pos.anim_obj)

/-- The `match race` of `Project::build`: the race-keys that receive the
lines of a position with the given race-key (Canine/Dog/Wolf
cross-insertion; the Boar variants collapse to `"Boar (Any)"`; every
other key inserts only under itself). -/
def raceInsert (m : List (String × List String)) (lines : List String)
    (race : String) : List (String × List String) :=
  if race = "Canine" then
    mapInsert (mapInsert (mapInsert m race lines) "Dog" lines) "Wolf" lines
  else if race = "Dog" ∨ race = "Wolf" then
    mapInsert (mapInsert m race lines) "Canine" lines
  else if race = "Boar" ∨ race = "Boar (Mounted)" ∨ race = "Boar (Any)" then
    mapInsert m "Boar (Any)" lines
  else
    mapInsert m race lines

/-- The body of the innermost loop of `Project::build` for one position:
read `position.event[0]` (a panic when the event list is empty), skip the
position when the identifier is already in the control set, otherwise
record it, generate the lines and insert them under the race-keys chosen
by the `match` on `position.race`. -/
def processPosition (udW : Bool) (hash : String) (fixedLen : Bool)
    (st : BuildSt) (pos : Position) : Except RErr BuildSt :=
  match pos.event.head? with
  | none => .error (.panicked "index out of bounds: position.event[0]")
  | some ev =>
    if st.control.contains ev then .ok st
    else
      .ok ⟨raceInsert st.events (positionLines udW hash fixedLen pos) pos.race,
           ev :: st.control⟩

/-- One stage of the FNIS loop: fold over its positions, using the
stage's `extra.fixed_len > 0.0` flag. -/
def processStage (udW : Bool) (hash : String) (st : BuildSt)
    (stage : Stage) : Except RErr BuildSt :=
  stage.positions.foldlM
    (fun s pos =>
      processPosition udW hash (decide (0 < stage.extra.fixed_len)) s pos)
    st

/-- One scene of the FNIS loop: warned scenes are skipped. -/
def processScene (udW : Bool) (hash : String) (st : BuildSt)
    (scene : Scene) : Except RErr BuildSt :=
  if scene.has_warnings then .ok st
  else scene.stages.foldlM (processStage udW hash) st

/-- The whole FNIS-list computation of `Project::build`: fold the scene
collection starting from the empty group map and the pre-seeded control
set. -/
def buildEvents (udW : Bool) (p : Project) : Except RErr BuildSt :=
  p.scenes.foldlM (fun st e => processScene udW p.pfxHash st e.2)
    ⟨[], initControl⟩

/-! ## `Project::from_slal` (project.rs lines 160–302)

A small model of `serde_json::Value` suffices: the importer only uses
`Value::index`, `as_str`, `as_array`, `as_i64` and `as_f64`.  Numbers are
modelled as integers (the only numeric fields are the stage-override
index and the timer, and the timer value is never inspected by any
claim). -/

inductive Json where
  | null
  | str (s : String)
  | num (n : Int)
  | arr (xs : List Json)
  | obj (fields : List (String × Json))

/-- `Value::index` by key: `Null` for a missing key or a non-object. -/
def Json.get (j : Json) (k : String) : Json :=
  match j with
  | .obj fields =>
    match fields.find? (fun e => e.1 = k) with
    | some e => e.2
    | none => .null
  | _ => .null

/-- `Value::as_str`. -/
def Json.as_str : Json → Option String
  | .str s => some s
  | _ => none

/-- `Value::as_array`. -/
def Json.as_arr : Json → Option (List Json)
  | .arr xs => some xs
  | _ => none

/-- `Value::as_i64` (numbers are modelled as integers). -/
def Json.as_i64 : Json → Option Int
  | .num n => some n
  | _ => none

/-- Rust `str::to_lowercase`, written per character so that it evaluates
definitionally (the legacy type codes are ASCII). -/
def lowerStr (s : String) : String := String.mk (s.data.map Char.toLower)

/-- Fresh stage ids: `Stage::default()` draws a random nanoid; modelled
from the spec ("unique identifier") as an injective numbering.  Stages
are created in one burst per scene, so the numbering restarts per
scene. -/
def stageId (i : Nat) : NanoID := String.mk ('s' :: List.replicate i 'x')

/-- Fresh scene ids: `Scene::default()` draws a random nanoid; modelled
from the spec as an injective numbering over the animation index. -/
def sceneId (a : Nat) : NanoID := String.mk ('c' :: List.replicate a 'x')

/-- A default `Stage` with a fresh id (Rust `Stage::default()`). -/
def defaultStage (i : Nat) : Stage :=
  ⟨stageId i, [], [], default⟩

/-- The initial stage array of `from_slal`: one default stage per event
of the first actor, each with `positions = vec![Default; actors.len()]`. -/
def initStages (numStages numPositions : Nat) : List Stage :=
  (List.range numStages).map
    (fun i => { defaultStage i with positions := List.replicate numPositions default })

/-- The `match sex.as_str()` classification of `from_slal` applied to one
position: sets the single-element event list and the sex/race fields.
`resolver` is `map_legacy_to_racekey` (defined in `racekeys.rs`, which is
not under `src/`), passed as a parameter. -/
def classifyPosition (resolver : String → Except String String)
    (crtRace : String) (sex : String) (raceField : Option String)
    (eventId : String) (p : Position) : Except RErr Position :=
  let p := { p with event := [eventId] }
  if sex = "male" ∨ sex = "type" then
    .ok { p with sex := ⟨true, false, false⟩, race := "Human" }
  else if sex = "female" then
    .ok { p with sex := ⟨false, true, false⟩, race := "Human" }
  else if sex = "creaturemale" then
    match resolver (raceField.getD crtRace) with
    | .ok rk => .ok { p with sex := ⟨true, false, false⟩, race := rk }
    | .error e => .error (.msg e)
  else if sex = "creaturefemale" then
    match resolver (raceField.getD crtRace) with
    | .ok rk => .ok { p with sex := ⟨false, true, false⟩, race := rk }
    | .error e => .error (.msg e)
  else
    .error (.msg ("Unrecognized gender: " ++ sex))

/-- `scene.stages[i].positions[n]` update with Rust indexing semantics: an
out-of-range index is a panic. -/
def updatePos (stages : List Stage) (i n : Nat)
    (f : Position → Except RErr Position) : Except RErr (List Stage) :=
  match stages[i]? with
  | none => .error (.panicked "index out of bounds: scene.stages[i]")
  | some stage =>
    match stage.positions[n]? with
    | none => .error (.panicked "index out of bounds: positions[n]")
    | some pos => do
      let pos ← f pos
      .ok (stages.set i { stage with positions := stage.positions.set n pos })

/-- The inner `for (i, evt) in events.iter().enumerate()` loop of
`from_slal` for one actor: look up each event's `id` and classify the
position at `stages[i].positions[n]`. -/
def applyEvents (resolver : String → Except String String)
    (crtRace sex : String) (raceField : Option String) (n : Nat) :
    Nat → List Json → List Stage → Except RErr (List Stage)
  | _, [], stages => .ok stages
  | i, evt :: rest, stages =>
    match (evt.get "id").as_str with
    | none => .error (.msg "Missing id attribute")
    | some eventId =>
      match updatePos stages i n
          (classifyPosition resolver crtRace sex raceField eventId) with
      | .error e => .error e
      | .ok stages =>
        applyEvents resolver crtRace sex raceField n (i + 1) rest stages

/-- The body of the `for (n, position) in actors.iter().enumerate()` loop
of `from_slal` for one actor: read its `type` (defaulting to "male",
lowercased) and `stages` array, initialize the scene's stage list from
the first non-skipped actor, then fill in this actor's positions. -/
def processActor (resolver : String → Except String String)
    (crtRace : String) (actorsLen n : Nat) (actor : Json)
    (stages : List Stage) : Except RErr (List Stage) :=
  let sex := lowerStr ((actor.get "type").as_str.getD "male")
  match (actor.get "stages").as_arr with
  | none => .error (.msg "Missing stages attribute")
  | some events =>
    let raceField := (actor.get "race").as_str
    if stages.isEmpty then
      if events.isEmpty then .error (.msg "Scene has no stages")
      else
        applyEvents resolver crtRace sex raceField n 0 events
          (initStages events.length actorsLen)
    else applyEvents resolver crtRace sex raceField n 0 events stages

/-- The whole actor loop of `from_slal`. -/
def processActors (resolver : String → Except String String)
    (crtRace : String) (actorsLen : Nat) :
    Nat → List Json → List Stage → Except RErr (List Stage)
  | _, [], stages => .ok stages
  | n, actor :: rest, stages =>
    match processActor resolver crtRace actorsLen n actor stages with
    | .error e => .error e
    | .ok stages =>
      processActors resolver crtRace actorsLen (n + 1) rest stages

/-- The comma-split, trimmed, lowercased tag list of `from_slal`. -/
def slalTags (animation : Json) : List String :=
  match (animation.get "tags").as_str with
  | some tags =>
    ((splitCommaAux (lowerStr tags).data).map (fun l => String.mk l)).map
      (fun s => s.trim)
  | none => []

/-- One entry of the per-stage override loop: `extra["number"]` compared
with the stage index (an `i64` cast `as usize`, so a wrap mod `2^64`; the
`-1` default is skipped), `extra["timer"]` assigned on a match. -/
def applyOneExtra (i : Nat) (st : Stage) (extra : Json) : Stage :=
  let n := (extra.get "number").as_i64.getD (-1)
  if n = -1 ∨ ¬ ((n % 2 ^ 64).toNat = i) then st
  else { st with extra := ⟨(extra.get "timer").as_i64.getD 0⟩ }

/-- The `for (i, stage) in scene.stages.iter_mut().enumerate()` loop:
assign the tag list and any matching timer override. -/
def applyStageExtras (tags : List String) (stage_extra : Option (List Json))
    (stages : List Stage) : List Stage :=
  stages.enum.map (fun p =>
    let st := { p.2 with tags := tags }
    match stage_extra with
    | some extras => extras.foldl (applyOneExtra p.1) st
    | none => st)

/-- Mark every position of the last stage as climax (the
`scene.stages.last_mut().unwrap()` block; the unwrap panics on an empty
stage list).  The in-place mutation of the last element is written as an
index-based map. -/
def markClimax (stages : List Stage) : Except RErr (List Stage) :=
  match stages with
  | [] => .error (.panicked "called Option.unwrap on a None value")
  | _ :: _ =>
    .ok (stages.enum.map (fun p =>
      if p.1 = stages.length - 1 then
        { p.2 with
          positions := p.2.positions.map (fun q => { q with extra := ⟨true⟩ }) }
      else p.2))

/-- `HashMap::insert` on the association-list model of the graph. -/
def graphInsert (g : List (NanoID × Node)) (k : NanoID) (v : Node) :
    List (NanoID × Node) :=
  (k, v) :: g.filter (fun e => ¬ e.1 = k)

/-- The node written for one stage during graph synthesis: a single edge
to the previously visited stage, or no edge for the first-visited (last)
stage. -/
def destNode : Option NanoID → Node
  | some i => ⟨[i]⟩
  | none => ⟨[]⟩

/-- The reverse-iteration graph synthesis of `from_slal`: each node's
single destination is the previously visited (next-in-forward-order)
stage id. -/
def buildGraphGo : List Stage → Option NanoID → List (NanoID × Node) →
    List (NanoID × Node)
  | [], _, g => g
  | st :: rest, prev, g =>
    buildGraphGo rest (some st.id) (graphInsert g st.id (destNode prev))

/-- The chain of nodes produced by the reverse iteration, expressed on
the bare id list (first-processed id last in the output). -/
def idChain : List NanoID → Option NanoID → List (NanoID × Node)
  | [], _ => []
  | x :: rest, prev => idChain rest (some x) ++ [(x, destNode prev)]

/-- The tail of the per-animation body of `from_slal`, after the actor
loop has produced the stage list: the tag/timer pass, the climax pass
(with its unwrap), the root assignment and the graph synthesis. -/
def finishScene (aIdx : Nat) (name : String) (tags : List String)
    (stage_extra : Option (List Json)) (stages0 : List Stage) :
    Except RErr Scene :=
  match markClimax (applyStageExtras tags stage_extra stages0) with
  | .error e => .error e
  | .ok stages =>
    match stages.head? with
    | none => .error (.panicked "index out of bounds: scene.stages[0]")
    | some s0 =>
      .ok ⟨sceneId aIdx, name, false, stages,
           buildGraphGo stages.reverse none [], s0.id, []⟩

/-- The per-animation body of `from_slal`: builds one `Scene`. -/
def importAnimation (resolver : String → Except String String)
    (aIdx : Nat) (animation : Json) : Except RErr Scene :=
  match (animation.get "name").as_str with
  | none => .error (.msg "Missing name attribute")
  | some name =>
    let crtRace := (animation.get "creature_race").as_str.getD ""
    match (animation.get "actors").as_arr with
    | none => .error (.msg "Missing actors attribute")
    | some actors =>
      match processActors resolver crtRace actors.length 0 actors [] with
      | .error e => .error e
      | .ok stages =>
        finishScene aIdx name (slalTags animation)
          ((animation.get "stage").as_arr) stages

/-- The scene loop of `from_slal`: build one scene per animation (the
index models the enumeration position) and insert it into the scene map
keyed by its own id (`HashMap::insert` on the association-list model). -/
def importScenes (resolver : String → Except String String) :
    Nat → List Json → List (NanoID × Scene) →
    Except RErr (List (NanoID × Scene))
  | _, [], acc => .ok acc
  | aIdx, anim :: rest, acc =>
    match importAnimation resolver aIdx anim with
    | .error e => .error e
    | .ok scene =>
      importScenes resolver (aIdx + 1) rest
        ((scene.id, scene) :: acc.filter (fun e => ¬ e.1 = scene.id))

/-- `Project::from_slal` (file I/O and JSON parsing excluded: the
argument is the parsed document).  `hash` models the fresh random
namespace token drawn by `Project::new`; `resolver` is
`map_legacy_to_racekey` from `racekeys.rs` (not under `src/`). -/
def fromSlal (resolver : String → Except String String) (hash : String)
    (slal : Json) : Except RErr Project :=
  match (slal.get "name").as_str with
  | none => .error (.msg "Missing name attribute")
  | some packName =>
    match (slal.get "animations").as_arr with
    | none => .error (.msg "Missing animations attribute")
    | some anims =>
      match importScenes resolver 0 anims [] with
      | .error e => .error e
      | .ok scenes => .ok ⟨packName, "Unknown", hash, scenes⟩

/-! ## Claim-side definitions: document builders and the linear-chain
graph shape -/

/-- An actor entry of a legacy SLAL document: a `type` code and one
stage-event object (with an `id`) per stage. -/
def mkSlalActor (ty : String) (evts : List String) : Json :=
  .obj [("type", .str ty),
        ("stages", .arr (evts.map (fun e => .obj [("id", .str e)])))]

/-- A legacy SLAL document with a single animation built from a name and
a list of actors (each a type code paired with its stage-event ids). -/
def mkSlalDoc (pn an : String) (actors : List (String × List String)) : Json :=
  .obj [("name", .str pn),
        ("animations", .arr [.obj
          [("name", .str an),
           ("actors", .arr (actors.map (fun a => mkSlalActor a.1 a.2)))]])]

/-- The structural invariant of the stage list built by the importer for
a scene with `S` stages and `A` actors: `S` stages, the `i`-th carrying
the `i`-th fresh id and exactly `A` positions. -/
def ShapeInv (S A : Nat) (stages : List Stage) : Prop :=
  stages.length = S
  ∧ (∀ (i : Nat) (h : i < stages.length), (stages.get ⟨i, h⟩).id = stageId i)
  ∧ (∀ (i : Nat) (h : i < stages.length),
      (stages.get ⟨i, h⟩).positions.length = A)

/-- A fixture stage used by concrete-input theorems. -/
def aStage : Stage := ⟨"sid", [], [], ⟨0⟩⟩

/-! # Theorems -/

/-- C4: for every call to `make_fnis_lines`, an event list of length 1
yields exactly one line with the basic type code `"b"`; a list of length
N > 1 yields exactly N lines where the first has the start code `"s"`
and the `"a"` option flag, intermediate lines have the continue code
`"+"` and no options, and the last line carries `"a,Tn"` if and only if
the fixed-length flag is set. -/
theorem make_fnis_lines_shape (events : List String) (hash : String)
    (fl : Bool) (obj : List String) :
    (∀ (h : events.length = 1),
      make_fnis_lines events hash fl obj
        = [make_fnis_line "b" (events.get ⟨0, by omega⟩) hash
            (if fl then "a" else "") obj])
    ∧ (1 < events.length →
        (make_fnis_lines events hash fl obj).length = events.length
        ∧ ∀ (i : Nat) (h : i < events.length),
          (make_fnis_lines events hash fl obj)[i]?
            = some (make_fnis_line (if i = 0 then "s" else "+")
                (events.get ⟨i, h⟩) hash
                (if i = 0 then "a"
                 else if i = events.length - 1 then
                   (if fl then "a,Tn" else "")
                 else "") obj)) := by
  constructor
  · intro h
    unfold make_fnis_lines
    rw [dif_pos h]
  · intro h
    have hne : ¬ events.length = 1 := by omega
    unfold make_fnis_lines
    rw [dif_neg hne]
    refine ⟨by simp [List.enum_length], ?_⟩
    intro i hi
    rw [List.getElem?_eq_getElem (by simp [List.enum_length]; omega)]
    simp only [List.getElem_map, List.getElem_enum, Option.some.injEq,
      List.get_eq_getElem]
    by_cases h0 : i = 0
    · simp [h0]
    · by_cases hlast : i = events.length - 1
      · cases fl <;> simp [h0, hlast]
      · cases fl <;> simp [h0, hlast]

/-- Witness for C4 at concrete inputs: a singleton event list and a
three-event list. -/
theorem make_fnis_lines_shape_witness :
    make_fnis_lines ["Solo"] "H" false []
      = [make_fnis_line "b" "Solo" "H" "" []]
    ∧ (make_fnis_lines ["A", "B", "C"] "H" true []).length = 3
    ∧ (make_fnis_lines ["A", "B", "C"] "H" true [])[2]?
      = some (make_fnis_line "+" "C" "H" "a,Tn" []) := by
  refine ⟨?_, ?_, ?_⟩
  · exact (make_fnis_lines_shape ["Solo"] "H" false []).1 rfl
  · exact ((make_fnis_lines_shape ["A", "B", "C"] "H" true []).2
      (by decide)).1
  · exact ((make_fnis_lines_shape ["A", "B", "C"] "H" true []).2
      (by decide)).2 2 (by decide)

theorem u64be_length (n : Nat) : (u64be n).length = 8 := rfl

theorem i32be_length (n : Int) : (i32be n).length = 4 := rfl

theorem writeFold_none (l : List (NanoID × Scene)) :
    l.foldl writeSceneStep none = none := by
  induction l with
  | nil => rfl
  | cons hd t ih => simpa [writeSceneStep] using ih

theorem writeFold_bad (l : List (NanoID × Scene)) (b : List Nat)
    (hbad : ∃ e ∈ l, e.2.has_warnings = false ∧ e.2.stages = []) :
    l.foldl writeSceneStep (some b) = none := by
  induction l generalizing b with
  | nil => simp at hbad
  | cons hd t ih =>
    obtain ⟨e, he, hw, hs⟩ := hbad
    rcases List.mem_cons.mp he with rfl | ht
    · have hz : e.2.stages.length = 0 := by simp [hs]
      simp only [List.foldl_cons, writeSceneStep, hw, if_neg, hz, if_pos]
      simpa using writeFold_none t
    · cases hstep : writeSceneStep (some b) hd with
      | none =>
        rw [List.foldl_cons, hstep]
        exact writeFold_none t
      | some b' =>
        rw [List.foldl_cons, hstep]
        exact ih b' ⟨e, ht, hw, hs⟩

theorem writeFold_warned (l : List (NanoID × Scene)) (b : List Nat)
    (h : ∀ e ∈ l, e.2.has_warnings = true) :
    l.foldl writeSceneStep (some b) = some b := by
  induction l generalizing b with
  | nil => rfl
  | cons hd t ih =>
    have hw := h hd (by simp)
    rw [List.foldl_cons]
    simp only [writeSceneStep, hw, if_pos]
    exact ih b (fun e he => h e (List.mem_cons_of_mem _ he))

theorem writeFold_ok (l : List (NanoID × Scene)) (b : List Nat)
    (hok : ∀ e ∈ l, e.2.has_warnings = false → e.2.stages ≠ []) :
    l.foldl writeSceneStep (some b)
      = some (b ++ ((l.filter (fun e => ¬ e.2.has_warnings)).map
          (fun e => e.2.enc)).flatten) := by
  induction l generalizing b with
  | nil => simp
  | cons hd t ih =>
    by_cases hw : hd.2.has_warnings
    · rw [List.foldl_cons]
      simp only [writeSceneStep, hw, if_pos]
      rw [ih b (fun e he => hok e (List.mem_cons_of_mem _ he))]
      simp [hw]
    · have hb : hd.2.has_warnings = false := by simpa using hw
      have hst : hd.2.stages ≠ [] := hok hd (by simp) hb
      have hz : ¬ hd.2.stages.length = 0 := by
        simpa [List.length_eq_zero] using hst
      rw [List.foldl_cons]
      simp only [writeSceneStep, hb, Bool.false_eq_true, if_neg, hz, if_false]
      rw [ih (b ++ hd.2.enc) (fun e he => hok e (List.mem_cons_of_mem _ he))]
      simp [hb, List.append_assoc]

/-- C7: at write time, a non-warned scene with an empty stage list makes
`Project::write_byte` abort (a panic, modelled as `none`) rather than
emit anything, while a project whose scenes are all warned encodes
without error to just the header. -/
theorem write_byte_empty_scene_fatal (p : Project) (buf : List Nat) :
    ((∃ e ∈ p.scenes, e.2.has_warnings = false ∧ e.2.stages = []) →
      p.write_byte buf = none)
    ∧ ((∀ e ∈ p.scenes, e.2.has_warnings = true) →
      p.write_byte buf = some (p.headerBytes buf)) := by
  constructor
  · intro hbad
    exact writeFold_bad p.scenes (p.headerBytes buf) hbad
  · intro hall
    exact writeFold_warned p.scenes (p.headerBytes buf) hall

/-- Witness for C7: a project with a non-warned zero-stage scene panics;
a project with only warned scenes writes exactly the header. -/
theorem write_byte_empty_scene_fatal_witness :
    Project.write_byte ⟨"P", "A", "H", [("k", ⟨"k", "K", false, [], [], "", []⟩)]⟩ []
      = none
    ∧ Project.write_byte ⟨"P", "A", "H", [("w", ⟨"w", "W", true, [], [], "", [7]⟩)]⟩ []
      = some (Project.headerBytes
          ⟨"P", "A", "H", [("w", ⟨"w", "W", true, [], [], "", [7]⟩)]⟩ []) := by
  constructor
  · exact (write_byte_empty_scene_fatal
      ⟨"P", "A", "H", [("k", ⟨"k", "K", false, [], [], "", []⟩)]⟩ []).1
      ⟨("k", ⟨"k", "K", false, [], [], "", []⟩), by simp, rfl, rfl⟩
  · exact (write_byte_empty_scene_fatal
      ⟨"P", "A", "H", [("w", ⟨"w", "W", true, [], [], "", [7]⟩)]⟩ []).2
      (by intro e he; simp at he; simp [he])

/-- C8: `get_byte_size` returns exactly the number of bytes `write_byte`
appends — for `Project` (under the data-model invariants that the
namespace token has the fixed length and every non-warned scene has at
least one stage) and for `Offset` (unconditionally). -/
theorem encode_size_write_agree :
    (∀ (p : Project) (buf : List Nat),
      strLen p.pfxHash = PFX_HASH_LEN →
      (∀ e ∈ p.scenes, e.2.has_warnings = false → e.2.stages ≠ []) →
      (p.write_byte buf).map List.length
        = some (buf.length + p.get_byte_size))
    ∧ (∀ (o : Offset) (buf : List Nat),
      (o.write_byte buf).length = buf.length + o.get_byte_size) := by
  constructor
  · intro p buf hlen hok
    rw [Project.write_byte, writeFold_ok p.scenes _ hok]
    simp only [Option.map_some', Option.some.injEq]
    rw [Project.headerBytes, Project.get_byte_size]
    simp only [List.length_append, List.length_flatten, List.map_map,
      Function.comp_def, u64be_length, List.length_cons, List.length_nil,
      strLen]
    rw [show (strBytes p.pfxHash).length = PFX_HASH_LEN from hlen]
    omega
  · intro o buf
    simp only [Offset.write_byte, Offset.get_byte_size, List.length_append,
      i32be_length]

/-- Witness for C8 at a concrete project (one warned, one non-warned
scene, 8-byte namespace token) and a concrete offset. -/
theorem encode_size_write_agree_witness :
    (Project.write_byte ⟨"P", "A", "ABCDEFGH",
        [("w", ⟨"w", "W", true, [], [], "", [7, 7]⟩),
         ("k", ⟨"k", "K", false, [aStage], [], "", [9, 9, 9]⟩)]⟩ []).map
        List.length
      = some ((0 : Nat) + Project.get_byte_size ⟨"P", "A", "ABCDEFGH",
          [("w", ⟨"w", "W", true, [], [], "", [7, 7]⟩),
           ("k", ⟨"k", "K", false, [aStage], [], "", [9, 9, 9]⟩)]⟩)
    ∧ (Offset.write_byte ⟨1, 2, 3, 4⟩ []).length
      = (0 : Nat) + Offset.get_byte_size ⟨1, 2, 3, 4⟩ := by
  constructor
  · exact encode_size_write_agree.1 _ [] (by decide)
      (by intro e he; simp [aStage] at he ⊢; rcases he with h | h <;> simp [h, aStage])
  · exact encode_size_write_agree.2 ⟨1, 2, 3, 4⟩ []

/-- C1: evaluation of `Project::write_byte` at a project with one warned
and one non-warned scene.  The u64 `scene_count` field of the emitted
header is `u64be 2` — the total number of scenes, `self.scenes.len()` —
while only the single non-warned scene's record follows it and the
number of scenes with `has_warnings == false` is 1.  The claim (and the
spec's layout, "count of scenes actually written, i.e. excluding warned
scenes") says the field should be `u64be 1`. -/
theorem scene_count_writes_total_scenes :
    Project.write_byte ⟨"P", "A", "ABCDEFGH",
        [("w", ⟨"w", "W", true, [], [], "", [7, 7]⟩),
         ("k", ⟨"k", "K", false, [aStage], [], "", [9, 9, 9]⟩)]⟩ []
      = some ([3] ++ u64be 1 ++ strBytes "P" ++ u64be 1 ++ strBytes "A"
          ++ strBytes "ABCDEFGH" ++ u64be 2 ++ [9, 9, 9])
    ∧ (List.filter (fun e => ¬ e.2.has_warnings)
        [("w", (⟨"w", "W", true, [], [], "", [7, 7]⟩ : Scene)),
         ("k", (⟨"k", "K", false, [aStage], [], "", [9, 9, 9]⟩ : Scene))]).length
      = 1
    ∧ u64be 2 ≠ u64be 1 := by
  refine ⟨by decide, by decide, by decide⟩

/-- C2 (counterexample): in a compile where two positions share the
first event identifier `"E"` but have different race-keys (`"Human"`
then `"Bear"`), the second position is skipped entirely: the group map
contains no `"Bear"` entry at all — the previously generated lines are
NOT reused for grouping under the later position's race-key. -/
theorem dedup_no_reuse_counterexample :
    buildEvents false
        ⟨"P", "A", "H",
         [("c", ⟨"c", "S", false,
            [⟨"s0",
              [⟨["E"], ⟨true, false, false⟩, "Human", "", ⟨false⟩⟩,
               ⟨["E"], ⟨true, false, false⟩, "Bear", "", ⟨false⟩⟩],
              [], ⟨0⟩⟩],
            [], "s0", []⟩)]⟩
      = .ok ⟨[("Human", ["b HE E.hkx"])], ["E", "__BLANK__", "__DEFAULT__"]⟩
    ∧ ¬ ("Bear" ∈ (List.map Prod.fst [("Human", ["b HE E.hkx"])])) := by
  exact ⟨rfl, by decide⟩

/-- C2 (amended): during `Project::build` the control set is pre-seeded
with the sentinels `"__BLANK__"` and `"__DEFAULT__"`; a position whose
first event is already in the control set leaves the whole state
unchanged (it is skipped — nothing is generated or inserted for it); a
position whose first event is not yet in the set has it recorded, so
each identifier is expanded at most once per compile. -/
theorem dedup_control_set :
    (∀ (udW : Bool) (p : Project), p.scenes = [] →
      buildEvents udW p = .ok ⟨[], ["__BLANK__", "__DEFAULT__"]⟩)
    ∧ (∀ (udW : Bool) (hash : String) (fl : Bool) (st : BuildSt)
        (pos : Position) (ev : String),
        pos.event.head? = some ev → ev ∈ st.control →
        processPosition udW hash fl st pos = .ok st)
    ∧ (∀ (udW : Bool) (hash : String) (fl : Bool) (st : BuildSt)
        (pos : Position) (ev : String),
        pos.event.head? = some ev → ¬ ev ∈ st.control →
        ∃ st', processPosition udW hash fl st pos = .ok st'
          ∧ st'.control = ev :: st.control) := by
  refine ⟨?_, ?_, ?_⟩
  · intro udW p hp
    unfold buildEvents
    rw [hp]
    rfl
  · intro udW hash fl st pos ev hev hmem
    have hc : st.control.contains ev = true := by simpa using hmem
    simp only [processPosition, hev, hc, if_true]
  · intro udW hash fl st pos ev hev hmem
    have hc : st.control.contains ev = false := by simpa using hmem
    simp only [processPosition, hev, hc, Bool.false_eq_true, if_neg,
      if_false]
    exact ⟨_, rfl, rfl⟩

/-- Witness for C2's amended theorem: the empty project yields the
pre-seeded control set; a position whose first event `"__BLANK__"` is
already in the control set is skipped; a fresh event is recorded. -/
theorem dedup_control_set_witness :
    buildEvents false ⟨"P", "A", "H", []⟩
      = .ok ⟨[], ["__BLANK__", "__DEFAULT__"]⟩
    ∧ processPosition false "H" false ⟨[], ["__BLANK__", "__DEFAULT__"]⟩
        ⟨["__BLANK__"], ⟨true, false, false⟩, "Human", "", ⟨false⟩⟩
      = .ok ⟨[], ["__BLANK__", "__DEFAULT__"]⟩
    ∧ ∃ st', processPosition false "H" false ⟨[], ["__BLANK__", "__DEFAULT__"]⟩
        ⟨["E"], ⟨true, false, false⟩, "Human", "", ⟨false⟩⟩
      = .ok st' ∧ st'.control = "E" :: ["__BLANK__", "__DEFAULT__"] := by
  refine ⟨?_, ?_, ?_⟩
  · exact dedup_control_set.1 false ⟨"P", "A", "H", []⟩ rfl
  · exact dedup_control_set.2.1 false "H" false _ _ "__BLANK__" rfl
      (by decide)
  · exact dedup_control_set.2.2 false "H" false _ _ "E" rfl (by decide)

theorem raceInsert_canine (m : List (String × List String))
    (l : List String) :
    raceInsert m l "Canine"
      = mapInsert (mapInsert (mapInsert m "Canine" l) "Dog" l) "Wolf" l := by
  simp [raceInsert]

theorem raceInsert_dogwolf (m : List (String × List String))
    (l : List String) (race : String) (h : race = "Dog" ∨ race = "Wolf") :
    raceInsert m l race = mapInsert (mapInsert m race l) "Canine" l := by
  rcases h with h | h <;> subst h <;> simp [raceInsert]

theorem raceInsert_boar (m : List (String × List String))
    (l : List String) (race : String)
    (h : race = "Boar" ∨ race = "Boar (Mounted)" ∨ race = "Boar (Any)") :
    raceInsert m l race = mapInsert m "Boar (Any)" l := by
  rcases h with h | h | h <;> subst h <;> simp [raceInsert]

theorem raceInsert_other (m : List (String × List String))
    (l : List String) (race : String)
    (h : ¬ (race = "Canine" ∨ race = "Dog" ∨ race = "Wolf" ∨ race = "Boar"
        ∨ race = "Boar (Mounted)" ∨ race = "Boar (Any)")) :
    raceInsert m l race = mapInsert m race l := by
  push_neg at h
  obtain ⟨h1, h2, h3, h4, h5, h6⟩ := h
  simp [raceInsert, h1, h2, h3, h4, h5, h6]

/-- C3: in the race grouping of `Project::build`, a single position with
race-key `"Canine"` inserts its lines under `"Canine"`, `"Dog"` and
`"Wolf"`; one with `"Dog"` (or `"Wolf"`) inserts under itself and
`"Canine"` but not under the third canine member; the three Boar
variants insert only under `"Boar (Any)"`; every other race-key inserts
only under itself — and every group receives exactly that position's
generated lines. -/
theorem build_race_grouping (udW : Bool) (hash race ev obj : String)
    (fl : Int) (hev1 : ev ≠ "__BLANK__") (hev2 : ev ≠ "__DEFAULT__") :
    ∀ st, buildEvents udW
        ⟨"P", "A", hash,
         [("c", ⟨"c", "S", false,
            [⟨"s0", [⟨[ev], ⟨true, false, false⟩, race, obj, ⟨false⟩⟩],
              [], ⟨fl⟩⟩],
            [], "s0", []⟩)]⟩
      = .ok st →
    ((race = "Canine" → st.events.map Prod.fst = ["Canine", "Dog", "Wolf"])
    ∧ ((race = "Dog" ∨ race = "Wolf") →
        st.events.map Prod.fst = [race, "Canine"])
    ∧ (race = "Dog" → ¬ "Wolf" ∈ st.events.map Prod.fst)
    ∧ (race = "Wolf" → ¬ "Dog" ∈ st.events.map Prod.fst)
    ∧ ((race = "Boar" ∨ race = "Boar (Mounted)" ∨ race = "Boar (Any)") →
        st.events.map Prod.fst = ["Boar (Any)"])
    ∧ (¬ (race = "Canine" ∨ race = "Dog" ∨ race = "Wolf" ∨ race = "Boar"
          ∨ race = "Boar (Mounted)" ∨ race = "Boar (Any)") →
        st.events.map Prod.fst = [race])
    ∧ (∀ r lines, (r, lines) ∈ st.events →
        lines = positionLines udW hash (decide (0 < fl))
          ⟨[ev], ⟨true, false, false⟩, race, obj, ⟨false⟩⟩)) := by
  intro st hst
  have hc : (initControl.contains ev) = false := by
    simp [initControl, hev1, hev2]
  simp only [buildEvents, processScene, processStage, List.foldlM_cons,
    List.foldlM_nil, bind_pure, Bool.false_eq_true, if_false] at hst
  simp only [processPosition, List.head?_cons, hc, Bool.false_eq_true,
    if_false] at hst
  obtain rfl : st = ⟨raceInsert []
      (positionLines udW hash (decide (0 < fl))
        ⟨[ev], ⟨true, false, false⟩, race, obj, ⟨false⟩⟩) race,
      ev :: initControl⟩ := by
    injection hst with h
    exact h.symm
  refine ⟨?_, ?_, ?_, ?_, ?_, ?_, ?_⟩
  · intro h
    subst h
    rw [show (⟨raceInsert _ _ "Canine", _ :: initControl⟩ : BuildSt).events
        = raceInsert _ _ "Canine" from rfl, raceInsert_canine]
    simp [mapInsert]
  · intro h
    rw [show (⟨raceInsert _ _ race, _ :: initControl⟩ : BuildSt).events
        = raceInsert _ _ race from rfl, raceInsert_dogwolf _ _ _ h]
    have hne : ¬ race = "Canine" := by
      rcases h with h | h <;> subst h <;> simp
    simp [mapInsert, hne]
  · intro h
    subst h
    rw [show (⟨raceInsert _ _ "Dog", _ :: initControl⟩ : BuildSt).events
        = raceInsert _ _ "Dog" from rfl,
      raceInsert_dogwolf _ _ _ (Or.inl rfl)]
    simp [mapInsert]
  · intro h
    subst h
    rw [show (⟨raceInsert _ _ "Wolf", _ :: initControl⟩ : BuildSt).events
        = raceInsert _ _ "Wolf" from rfl,
      raceInsert_dogwolf _ _ _ (Or.inr rfl)]
    simp [mapInsert]
  · intro h
    rw [show (⟨raceInsert _ _ race, _ :: initControl⟩ : BuildSt).events
        = raceInsert _ _ race from rfl, raceInsert_boar _ _ _ h]
    simp [mapInsert]
  · intro h
    rw [show (⟨raceInsert _ _ race, _ :: initControl⟩ : BuildSt).events
        = raceInsert _ _ race from rfl, raceInsert_other _ _ _ h]
    simp [mapInsert]
  · intro r lines hmem
    rw [show (⟨raceInsert _ _ race, _ :: initControl⟩ : BuildSt).events
        = raceInsert _ _ race from rfl] at hmem
    by_cases h1 : race = "Canine"
    · subst h1
      rw [raceInsert_canine] at hmem
      simp [mapInsert] at hmem
      rcases hmem with ⟨_, h⟩ | ⟨_, h⟩ | ⟨_, h⟩ <;> exact h
    · by_cases h2 : race = "Dog" ∨ race = "Wolf"
      · rw [raceInsert_dogwolf _ _ _ h2] at hmem
        have hne : ¬ race = "Canine" := h1
        simp [mapInsert, hne] at hmem
        rcases hmem with ⟨_, h⟩ | ⟨_, h⟩ <;> exact h
      · by_cases h3 : race = "Boar" ∨ race = "Boar (Mounted)"
            ∨ race = "Boar (Any)"
        · rw [raceInsert_boar _ _ _ h3] at hmem
          simp [mapInsert] at hmem
          exact hmem.2
        · rw [raceInsert_other _ _ _ (by tauto)] at hmem
          simp [mapInsert] at hmem
          exact hmem.2

/-- Witness for C3: a single `"Dog"` position groups under `"Dog"` and
`"Canine"` and not under `"Wolf"`. -/
theorem build_race_grouping_witness :
    ∃ st, buildEvents false
        ⟨"P", "A", "H",
         [("c", ⟨"c", "S", false,
            [⟨"s0", [⟨["E"], ⟨true, false, false⟩, "Dog", "", ⟨false⟩⟩],
              [], ⟨0⟩⟩],
            [], "s0", []⟩)]⟩
      = .ok st
      ∧ st.events.map Prod.fst = ["Dog", "Canine"]
      ∧ ¬ "Wolf" ∈ st.events.map Prod.fst := by
  refine ⟨_, rfl, ?_, ?_⟩
  · exact ((build_race_grouping false "H" "Dog" "E" "" 0 (by decide)
      (by decide)) _ rfl).2.1 (Or.inl rfl)
  · exact ((build_race_grouping false "H" "Dog" "E" "" 0 (by decide)
      (by decide)) _ rfl).2.2.1 rfl

/-- C6: the classification applied to each position by
`Project::from_slal` (the matched string is the actor's lowercased
`type` code, computed in `processActor`): `"male"` and `"type"` give
male + `"Human"`; `"female"` gives female + `"Human"`; `"creaturemale"` /
`"creaturefemale"` give the respective single sex flag plus the race
returned by the legacy-alias resolver applied to the per-actor `race`
field, falling back to the animation-level creature race when that field
is absent (a resolver error aborts the import); every other code fails
with an unrecognized-gender error. -/
theorem legacy_gender_classification
    (resolver : String → Except String String) (crt : String)
    (p : Position) (eventId sex : String) (raceField : Option String) :
    ((sex = "male" ∨ sex = "type") →
      classifyPosition resolver crt sex raceField eventId p
        = .ok { p with
                event := [eventId]
                sex := ⟨true, false, false⟩
                race := "Human" })
    ∧ (sex = "female" →
      classifyPosition resolver crt sex raceField eventId p
        = .ok { p with
                event := [eventId]
                sex := ⟨false, true, false⟩
                race := "Human" })
    ∧ (sex = "creaturemale" →
      (∀ rk, resolver (raceField.getD crt) = .ok rk →
        classifyPosition resolver crt sex raceField eventId p
          = .ok { p with
                  event := [eventId]
                  sex := ⟨true, false, false⟩
                  race := rk })
      ∧ (raceField = none →
          ∀ rk, resolver crt = .ok rk →
            classifyPosition resolver crt sex raceField eventId p
              = .ok { p with
                      event := [eventId]
                      sex := ⟨true, false, false⟩
                      race := rk })
      ∧ (∀ e, resolver (raceField.getD crt) = .error e →
          classifyPosition resolver crt sex raceField eventId p
            = .error (.msg e)))
    ∧ (sex = "creaturefemale" →
      (∀ rk, resolver (raceField.getD crt) = .ok rk →
        classifyPosition resolver crt sex raceField eventId p
          = .ok { p with
                  event := [eventId]
                  sex := ⟨false, true, false⟩
                  race := rk })
      ∧ (∀ e, resolver (raceField.getD crt) = .error e →
          classifyPosition resolver crt sex raceField eventId p
            = .error (.msg e)))
    ∧ (¬ (sex = "male" ∨ sex = "type" ∨ sex = "female"
          ∨ sex = "creaturemale" ∨ sex = "creaturefemale") →
      classifyPosition resolver crt sex raceField eventId p
        = .error (.msg ("Unrecognized gender: " ++ sex))) := by
  refine ⟨?_, ?_, ?_, ?_, ?_⟩
  · intro h
    simp [classifyPosition, h]
  · intro h
    subst h
    simp [classifyPosition]
  · intro h
    subst h
    refine ⟨?_, ?_, ?_⟩
    · intro rk hrk
      simp [classifyPosition, hrk]
    · intro hrf rk hrk
      subst hrf
      simp [classifyPosition, hrk]
    · intro e he
      simp [classifyPosition, he]
  · intro h
    subst h
    refine ⟨?_, ?_⟩
    · intro rk hrk
      simp [classifyPosition, hrk]
    · intro e he
      simp [classifyPosition, he]
  · intro h
    push_neg at h
    obtain ⟨h1, h2, h3, h4, h5⟩ := h
    simp [classifyPosition, h1, h2, h3, h4, h5]

/-- Witness for C6: `"amphibian"` fails with the unrecognized-gender
error; `"creaturemale"` with no per-actor race field resolves through
the animation-level creature race. -/
theorem legacy_gender_classification_witness :
    classifyPosition (fun _ => .error "no") "" "amphibian" none "E" default
      = .error (.msg ("Unrecognized gender: " ++ "amphibian"))
    ∧ classifyPosition (fun _ => .ok "Wolf") "CRT" "creaturemale" none "E"
        default
      = .ok { (default : Position) with
              event := ["E"]
              sex := ⟨true, false, false⟩
              race := "Wolf" } := by
  constructor
  · exact (legacy_gender_classification (fun _ => .error "no") ""
      default "E" "amphibian" none).2.2.2.2 (by decide)
  · exact ((legacy_gender_classification (fun _ => .ok "Wolf") "CRT"
      default "E" "creaturemale" none).2.2.1 rfl).2.1 rfl "Wolf" rfl

/-- C9: importing a document whose animation has an empty `actors` array
does not produce a typed import error: the stage list is never
initialized and the unconditional unwrap of the last stage panics. -/
theorem from_slal_empty_actors_panics
    (resolver : String → Except String String) (hash pn an : String) :
    fromSlal resolver hash (.obj [("name", .str pn),
        ("animations", .arr [.obj [("name", .str an), ("actors", .arr [])]])])
      = .error (.panicked "called Option.unwrap on a None value")
    ∧ ∀ m, fromSlal resolver hash (.obj [("name", .str pn),
        ("animations", .arr [.obj [("name", .str an), ("actors", .arr [])]])])
      ≠ .error (.msg m) := by
  have h : fromSlal resolver hash (.obj [("name", .str pn),
      ("animations", .arr [.obj [("name", .str an), ("actors", .arr [])]])])
      = .error (.panicked "called Option.unwrap on a None value") := rfl
  refine ⟨h, ?_⟩
  intro m hm
  rw [h] at hm
  simp at hm

/-- C10: an actor entry whose `type` field is missing or not a string is
silently treated as the legacy code `"male"`: the import succeeds and the
position becomes a male Human, with no malformed-document or
unrecognized-gender error. -/
theorem typeless_actor_defaults_male
    (resolver : String → Except String String) (hash : String)
    (tv : Json) (ev pn an : String) (h : tv.as_str = none) :
    fromSlal resolver hash (.obj [("name", .str pn),
        ("animations", .arr [.obj [("name", .str an),
          ("actors", .arr [.obj [("type", tv),
            ("stages", .arr [.obj [("id", .str ev)]])]])]])])
      = .ok ⟨pn, "Unknown", hash,
          [(sceneId 0, ⟨sceneId 0, an, false,
            [⟨stageId 0, [⟨[ev], ⟨true, false, false⟩, "Human", "", ⟨true⟩⟩],
              [], ⟨0⟩⟩],
            [(stageId 0, ⟨[]⟩)], stageId 0, []⟩)]⟩ := by
  cases tv with
  | str s => simp [Json.as_str] at h
  | null => rfl
  | num n => rfl
  | arr xs => rfl
  | obj fields => rfl

/-- Witness for C10: a concrete document whose single actor has a
numeric `type` field imports as a male Human position. -/
theorem typeless_actor_defaults_male_witness :
    fromSlal (fun _ => .error "") "HH" (.obj [("name", .str "PN"),
        ("animations", .arr [.obj [("name", .str "AN"),
          ("actors", .arr [.obj [("type", .num 5),
            ("stages", .arr [.obj [("id", .str "EVT")]])]])]])])
      = .ok ⟨"PN", "Unknown", "HH",
          [(sceneId 0, ⟨sceneId 0, "AN", false,
            [⟨stageId 0,
              [⟨["EVT"], ⟨true, false, false⟩, "Human", "", ⟨true⟩⟩],
              [], ⟨0⟩⟩],
            [(stageId 0, ⟨[]⟩)], stageId 0, []⟩)]⟩ :=
  typeless_actor_defaults_male (fun _ => .error "") "HH" (.num 5)
    "EVT" "PN" "AN" rfl

theorem stageId_inj : Function.Injective stageId := by
  intro i j h
  have hd : ('s' :: List.replicate i 'x') = ('s' :: List.replicate j 'x') :=
    congrArg String.data h
  have := congrArg List.length hd
  simpa using this

theorem shape_initStages (S A : Nat) : ShapeInv S A (initStages S A) := by
  refine ⟨by simp [initStages], ?_, ?_⟩
  · intro i h
    simp only [initStages, List.get_eq_getElem, List.getElem_map,
      List.getElem_range, defaultStage]
  · intro i h
    simp only [initStages, List.get_eq_getElem, List.getElem_map,
      List.getElem_range, defaultStage]
    simp

theorem classify_human_ok (resolver : String → Except String String)
    (crt : String) (rf : Option String) (ev : String) (p : Position)
    (sex : String) (h : sex = "male" ∨ sex = "female" ∨ sex = "type") :
    ∃ q, classifyPosition resolver crt sex rf ev p = .ok q := by
  rcases h with h | h | h <;> subst h <;> exact ⟨_, rfl⟩

theorem updatePos_shape (S A : Nat) (stages : List Stage) (i n : Nat)
    (f : Position → Except RErr Position) (hinv : ShapeInv S A stages)
    (hi : i < S) (hn : n < A) (hf : ∀ p, ∃ q, f p = .ok q) :
    ∃ stages', updatePos stages i n f = .ok stages'
      ∧ ShapeInv S A stages' := by
  obtain ⟨hlen, hid, hpos⟩ := hinv
  have hi' : i < stages.length := by omega
  have hn' : n < (stages.get ⟨i, hi'⟩).positions.length := by
    rw [hpos i hi']
    exact hn
  obtain ⟨q, hq⟩ := hf ((stages.get ⟨i, hi'⟩).positions.get ⟨n, hn'⟩)
  have h1 : stages[i]? = some (stages.get ⟨i, hi'⟩) :=
    List.getElem?_eq_getElem hi'
  have h2 : (stages.get ⟨i, hi'⟩).positions[n]?
      = some ((stages.get ⟨i, hi'⟩).positions.get ⟨n, hn'⟩) :=
    List.getElem?_eq_getElem hn'
  refine ⟨stages.set i { stages.get ⟨i, hi'⟩ with
      positions := (stages.get ⟨i, hi'⟩).positions.set n q }, ?_, ?_⟩
  · simp only [updatePos, h1, h2, hq]
    rfl
  · refine ⟨by simpa using hlen, ?_, ?_⟩
    · intro j hj
      simp only [List.get_eq_getElem, List.length_set] at hj ⊢
      by_cases hij : i = j
      · subst hij
        rw [List.getElem_set_self]
        exact hid i hi'
      · rw [List.getElem_set_ne hij]
        exact hid j (by simpa using hj)
    · intro j hj
      simp only [List.get_eq_getElem, List.length_set] at hj ⊢
      by_cases hij : i = j
      · subst hij
        rw [List.getElem_set_self]
        simpa using hpos i hi'
      · rw [List.getElem_set_ne hij]
        exact hpos j (by simpa using hj)

theorem applyEvents_shape (resolver : String → Except String String)
    (crt sex : String) (rf : Option String) (S A n : Nat)
    (hsex : sex = "male" ∨ sex = "female" ∨ sex = "type") (hn : n < A) :
    ∀ (evts : List String) (i0 : Nat) (stages : List Stage),
      ShapeInv S A stages → i0 + evts.length ≤ S →
      ∃ stages', applyEvents resolver crt sex rf n i0
          (evts.map (fun e => Json.obj [("id", Json.str e)])) stages
        = .ok stages' ∧ ShapeInv S A stages' := by
  intro evts
  induction evts with
  | nil =>
    intro i0 stages hinv _
    exact ⟨stages, rfl, hinv⟩
  | cons e rest ih =>
    intro i0 stages hinv hle
    obtain ⟨stages1, hupd, hinv1⟩ := updatePos_shape S A stages i0 n
      (classifyPosition resolver crt sex rf e) hinv (by simp at hle; omega)
      hn (fun p => classify_human_ok resolver crt rf e p sex hsex)
    obtain ⟨stages2, hrec, hinv2⟩ := ih (i0 + 1) stages1 hinv1
      (by simp at hle ⊢; omega)
    refine ⟨stages2, ?_, hinv2⟩
    simp only [List.map_cons, applyEvents,
      show ((Json.obj [("id", Json.str e)]).get "id").as_str
        = some e from rfl]
    rw [hupd]
    exact hrec

theorem processActor_shape (resolver : String → Except String String)
    (crt : String) (S A n : Nat) (ty : String) (evts : List String)
    (hty : ty = "male" ∨ ty = "female" ∨ ty = "type")
    (hlen : evts.length = S) (hS : 0 < S) (hn : n < A)
    (stages : List Stage)
    (hst : stages = [] ∨ ShapeInv S A stages) :
    ∃ stages', processActor resolver crt A n (mkSlalActor ty evts) stages
      = .ok stages' ∧ ShapeInv S A stages' := by
  have hsex : lowerStr ty = ty := by
    rcases hty with h | h | h <;> subst h <;> rfl
  rcases hst with hst | hst
  · subst hst
    have hne : (evts.map (fun e => Json.obj [("id", Json.str e)])).isEmpty
        = false := by
      have hl : (evts.map (fun e => Json.obj [("id", Json.str e)])).length
          = S := by simpa using hlen
      cases hmap : evts.map (fun e => Json.obj [("id", Json.str e)]) with
      | nil =>
        rw [hmap] at hl
        simp at hl
        omega
      | cons y ys => rfl
    obtain ⟨stages', happ, hinv'⟩ := applyEvents_shape resolver crt ty none
      S A n (by simpa [hsex]) hn evts 0 (initStages S A)
      (shape_initStages S A) (by omega)
    refine ⟨stages', ?_, hinv'⟩
    simp only [processActor,
      show ((mkSlalActor ty evts).get "type").as_str = some ty from rfl,
      show ((mkSlalActor ty evts).get "stages").as_arr
        = some (evts.map (fun e => Json.obj [("id", Json.str e)])) from rfl,
      show ((mkSlalActor ty evts).get "race").as_str = none from rfl,
      Option.getD_some, hsex, List.isEmpty_nil, hne, Bool.false_eq_true,
      if_false, if_true, List.length_map, hlen]
    exact happ
  · have hlen0 : stages.length = S := hst.1
    have hne : stages.isEmpty = false := by
      cases hs : stages with
      | nil =>
        rw [hs] at hlen0
        simp at hlen0
        omega
      | cons y ys => rfl
    obtain ⟨stages', happ, hinv'⟩ := applyEvents_shape resolver crt ty none
      S A n (by simpa [hsex]) hn evts 0 stages hst (by omega)
    refine ⟨stages', ?_, hinv'⟩
    simp only [processActor,
      show ((mkSlalActor ty evts).get "type").as_str = some ty from rfl,
      show ((mkSlalActor ty evts).get "stages").as_arr
        = some (evts.map (fun e => Json.obj [("id", Json.str e)])) from rfl,
      show ((mkSlalActor ty evts).get "race").as_str = none from rfl,
      Option.getD_some, hsex, hne, Bool.false_eq_true, if_false]
    exact happ

theorem processActors_shape (resolver : String → Except String String)
    (crt : String) (S A : Nat) (hS : 0 < S) :
    ∀ (acts : List (String × List String)) (n : Nat) (stages : List Stage),
      (∀ a ∈ acts, (a.1 = "male" ∨ a.1 = "female" ∨ a.1 = "type")
        ∧ a.2.length = S) →
      n + acts.length ≤ A → ShapeInv S A stages →
      ∃ stages', processActors resolver crt A n
          (acts.map (fun a => mkSlalActor a.1 a.2)) stages
        = .ok stages' ∧ ShapeInv S A stages' := by
  intro acts
  induction acts with
  | nil =>
    intro n stages _ _ hinv
    exact ⟨stages, rfl, hinv⟩
  | cons a rest ih =>
    intro n stages hgood hle hinv
    obtain ⟨s1, hpa, hinv1⟩ := processActor_shape resolver crt S A n a.1 a.2
      (hgood a (by simp)).1 (hgood a (by simp)).2 hS
      (by simp at hle; omega) stages (Or.inr hinv)
    obtain ⟨s2, hrec, hinv2⟩ := ih (n + 1) s1
      (fun x hx => hgood x (List.mem_cons_of_mem _ hx))
      (by simp at hle ⊢; omega) hinv1
    refine ⟨s2, ?_, hinv2⟩
    simp only [List.map_cons, processActors]
    rw [hpa]
    exact hrec

theorem applyStageExtras_shape (S A : Nat) (tags : List String)
    (stages : List Stage) (hinv : ShapeInv S A stages) :
    ShapeInv S A (applyStageExtras tags none stages) := by
  obtain ⟨hlen, hid, hpos⟩ := hinv
  refine ⟨by simp [applyStageExtras, List.enum_length, hlen], ?_, ?_⟩
  · intro i h
    simp only [applyStageExtras, List.get_eq_getElem, List.getElem_map,
      List.getElem_enum]
    exact hid i (by simpa [applyStageExtras, List.enum_length] using h)
  · intro i h
    simp only [applyStageExtras, List.get_eq_getElem, List.getElem_map,
      List.getElem_enum]
    exact hpos i (by simpa [applyStageExtras, List.enum_length] using h)

theorem markClimax_shape (S A : Nat) (hS : 0 < S) (stages : List Stage)
    (hinv : ShapeInv S A stages) :
    ∃ stages', markClimax stages = .ok stages' ∧ ShapeInv S A stages' := by
  obtain ⟨hlen, hid, hpos⟩ := hinv
  cases hs : stages with
  | nil =>
    rw [hs] at hlen
    simp at hlen
    omega
  | cons s0 rest =>
    rw [← hs]
    have hcons : markClimax stages
        = .ok (stages.enum.map (fun p =>
            if p.1 = stages.length - 1 then
              { p.2 with
                positions := p.2.positions.map
                  (fun q => { q with extra := ⟨true⟩ }) }
            else p.2)) := by
      rw [hs]
      rfl
    refine ⟨_, hcons, ?_, ?_, ?_⟩
    · simp [List.enum_length, hlen]
    · intro i h
      simp only [List.get_eq_getElem, List.getElem_map, List.getElem_enum]
      have hi : i < stages.length := by
        simpa [List.enum_length] using h
      by_cases hl : i = stages.length - 1
      · simp only [hl, eq_self_iff_true, if_true]
        simpa using hid (stages.length - 1)
          (by omega : stages.length - 1 < stages.length)
      · simp only [hl, if_false, if_neg]
        simpa using hid i hi
    · intro i h
      simp only [List.get_eq_getElem, List.getElem_map, List.getElem_enum]
      have hi : i < stages.length := by
        simpa [List.enum_length] using h
      by_cases hl : i = stages.length - 1
      · simp only [hl, eq_self_iff_true, if_true, List.length_map]
        simpa using hpos (stages.length - 1)
          (by omega : stages.length - 1 < stages.length)
      · simp only [hl, if_false, if_neg]
        simpa using hpos i hi

theorem shape_map_id (S A : Nat) (stages : List Stage)
    (hinv : ShapeInv S A stages) :
    stages.map Stage.id = (List.range S).map stageId := by
  obtain ⟨hlen, hid, _⟩ := hinv
  apply List.ext_getElem
  · simp [hlen]
  · intro i h1 h2
    simp only [List.getElem_map, List.getElem_range]
    have hi : i < stages.length := by simpa using h1
    simpa using hid i hi

theorem buildGraphGo_eq :
    ∀ (l : List Stage) (prev : Option NanoID) (g : List (NanoID × Node)),
      (l.map Stage.id).Nodup →
      (∀ st ∈ l, ∀ e ∈ g, ¬ e.1 = st.id) →
      buildGraphGo l prev g = idChain (l.map Stage.id) prev ++ g := by
  intro l
  induction l with
  | nil =>
    intro prev g _ _
    simp [buildGraphGo, idChain]
  | cons st rest ih =>
    intro prev g hnd hfresh
    have hfilter : g.filter (fun e => ¬ e.1 = st.id) = g := by
      apply List.filter_eq_self.mpr
      intro e he
      simpa using hfresh st (by simp) e he
    have hsplit : (∀ x ∈ rest, ¬ x.id = st.id)
        ∧ (rest.map Stage.id).Nodup := by
      simpa using hnd
    simp only [buildGraphGo, graphInsert, hfilter]
    rw [ih (some st.id) ((st.id, destNode prev) :: g) hsplit.2 ?fresh]
    · simp only [List.map_cons, idChain]
      simp [List.append_assoc]
    case fresh =>
      intro st' hst' e he
      rcases List.mem_cons.mp he with rfl | he2
      · intro hcontra
        exact hsplit.1 st' hst' hcontra.symm
      · exact hfresh st' (List.mem_cons_of_mem _ hst') e he2

theorem idChain_range (g : Nat → NanoID) :
    ∀ (n : Nat) (prev : Option NanoID),
      idChain (((List.range n).map g).reverse) prev
        = (List.range n).map (fun i =>
            (g i, if i + 1 < n then (⟨[g (i + 1)]⟩ : Node)
              else destNode prev)) := by
  intro n
  induction n with
  | zero => intro prev; simp [idChain]
  | succ m ih =>
    intro prev
    rw [List.range_succ, List.map_append, List.reverse_append]
    simp only [List.map_cons, List.map_nil, List.reverse_cons,
      List.reverse_nil, List.nil_append, List.singleton_append]
    rw [show idChain (g m :: ((List.range m).map g).reverse) prev
        = idChain (((List.range m).map g).reverse) (some (g m))
          ++ [(g m, destNode prev)] from rfl]
    rw [ih (some (g m))]
    rw [List.map_append]
    congr 1
    · apply List.map_congr_left
      intro i hi
      have him : i < m := List.mem_range.mp hi
      by_cases hcase : i + 1 < m
      · rw [if_pos hcase, if_pos (by omega)]
      · have : i + 1 = m := by omega
        rw [if_neg hcase, if_pos (by omega), this]
        rfl
    · simp [destNode]

theorem finishScene_good (aIdx : Nat) (name : String) (S A : Nat)
    (hS : 0 < S) (stages0 : List Stage) (hinv : ShapeInv S A stages0) :
    ∃ scene, finishScene aIdx name [] none stages0 = .ok scene
      ∧ scene.id = sceneId aIdx
      ∧ scene.name = name
      ∧ scene.has_warnings = false
      ∧ ShapeInv S A scene.stages
      ∧ scene.stages.map Stage.id = (List.range S).map stageId
      ∧ scene.root = stageId 0
      ∧ scene.graph = (List.range S).map (fun i =>
          (stageId i, if i + 1 < S then (⟨[stageId (i + 1)]⟩ : Node)
            else (⟨[]⟩ : Node))) := by
  have hinv1 := applyStageExtras_shape S A [] stages0 hinv
  obtain ⟨stages2, hmc, hinv2⟩ := markClimax_shape S A hS _ hinv1
  have hlen2 : stages2.length = S := hinv2.1
  obtain ⟨s0, rest, hs2⟩ : ∃ s0 rest, stages2 = s0 :: rest := by
    cases hs : stages2 with
    | nil =>
      rw [hs] at hlen2
      simp at hlen2
      omega
    | cons a b => exact ⟨a, b, rfl⟩
  subst hs2
  have hmap : (s0 :: rest).map Stage.id = (List.range S).map stageId :=
    shape_map_id S A _ hinv2
  have hroot : s0.id = stageId 0 := by
    have h0 : (0 : Nat) < (s0 :: rest).length := by simp
    simpa using hinv2.2.1 0 h0
  have hnodup : ((s0 :: rest).map Stage.id).Nodup := by
    rw [hmap]
    exact (List.nodup_range S).map stageId_inj
  have hgraph : buildGraphGo (s0 :: rest).reverse none []
      = (List.range S).map (fun i =>
          (stageId i, if i + 1 < S then (⟨[stageId (i + 1)]⟩ : Node)
            else (⟨[]⟩ : Node))) := by
    rw [buildGraphGo_eq (s0 :: rest).reverse none [] ?nd ?fr]
    · rw [List.map_reverse, hmap, idChain_range stageId S none]
      simp [destNode]
    case nd =>
      rw [List.map_reverse, List.nodup_reverse]
      exact hnodup
    case fr =>
      intro st _ e he
      exact absurd he (List.not_mem_nil e)
  refine ⟨⟨sceneId aIdx, name, false, s0 :: rest,
      buildGraphGo (s0 :: rest).reverse none [], s0.id, []⟩,
    ?_, rfl, rfl, rfl, hinv2, hmap, hroot, hgraph⟩
  simp only [finishScene, hmc]
  rfl

theorem from_slal_linear_chain_aux
    (resolver : String → Except String String) (hash pn an : String)
    (a0 : String × List String) (rest : List (String × List String))
    (S : Nat) (hS : 0 < S)
    (hgood : ∀ a ∈ a0 :: rest,
      (a.1 = "male" ∨ a.1 = "female" ∨ a.1 = "type") ∧ a.2.length = S) :
    ∃ scene : Scene,
      fromSlal resolver hash (mkSlalDoc pn an (a0 :: rest))
        = .ok ⟨pn, "Unknown", hash, [(sceneId 0, scene)]⟩
      ∧ scene.stages.length = S
      ∧ scene.stages.map Stage.id = (List.range S).map stageId
      ∧ (∀ st ∈ scene.stages, st.positions.length = (a0 :: rest).length)
      ∧ scene.root = stageId 0
      ∧ scene.graph = (List.range S).map (fun i =>
          (stageId i, if i + 1 < S then (⟨[stageId (i + 1)]⟩ : Node)
            else (⟨[]⟩ : Node))) := by
  obtain ⟨s1, hpa1, hinv1⟩ := processActor_shape resolver "" S
    (a0 :: rest).length 0 a0.1 a0.2 (hgood a0 (by simp)).1
    (hgood a0 (by simp)).2 hS (by simp) [] (Or.inl rfl)
  obtain ⟨s2, hpas, hinv2⟩ := processActors_shape resolver "" S
    (a0 :: rest).length hS rest 1 s1
    (fun x hx => hgood x (List.mem_cons_of_mem _ hx)) (by simp; omega) hinv1
  have hall : processActors resolver "" (a0 :: rest).length 0
      ((a0 :: rest).map (fun a => mkSlalActor a.1 a.2)) [] = .ok s2 := by
    simp only [List.map_cons, processActors]
    rw [hpa1]
    exact hpas
  obtain ⟨scene, hfin, hsid, _, _, hinvS, hmap, hroot, hgraph⟩ :=
    finishScene_good 0 an S (a0 :: rest).length hS s2 hinv2
  have himp : importAnimation resolver 0
      (Json.obj [("name", Json.str an),
        ("actors", Json.arr ((a0 :: rest).map
          (fun a => mkSlalActor a.1 a.2)))])
      = .ok scene := by
    simp only [importAnimation,
      show ((Json.obj [("name", Json.str an),
          ("actors", Json.arr ((a0 :: rest).map
            (fun a => mkSlalActor a.1 a.2)))]).get "name").as_str
        = some an from rfl,
      show ((Json.obj [("name", Json.str an),
          ("actors", Json.arr ((a0 :: rest).map
            (fun a => mkSlalActor a.1 a.2)))]).get "creature_race").as_str
        = none from rfl,
      show ((Json.obj [("name", Json.str an),
          ("actors", Json.arr ((a0 :: rest).map
            (fun a => mkSlalActor a.1 a.2)))]).get "actors").as_arr
        = some ((a0 :: rest).map (fun a => mkSlalActor a.1 a.2)) from rfl,
      Option.getD_none, List.length_map]
    rw [hall]
    rw [show slalTags (Json.obj [("name", Json.str an),
        ("actors", Json.arr ((a0 :: rest).map
          (fun a => mkSlalActor a.1 a.2)))]) = [] from rfl]
    rw [show ((Json.obj [("name", Json.str an),
        ("actors", Json.arr ((a0 :: rest).map
          (fun a => mkSlalActor a.1 a.2)))]).get "stage").as_arr
        = none from rfl]
    exact hfin
  refine ⟨scene, ?_, hinvS.1, hmap, ?_, hroot, hgraph⟩
  · simp only [fromSlal,
      show ((mkSlalDoc pn an (a0 :: rest)).get "name").as_str
        = some pn from rfl,
      show ((mkSlalDoc pn an (a0 :: rest)).get "animations").as_arr
        = some [Json.obj [("name", Json.str an),
            ("actors", Json.arr ((a0 :: rest).map
              (fun a => mkSlalActor a.1 a.2)))]] from rfl,
      importScenes]
    rw [himp]
    show Except.ok (⟨pn, "Unknown", hash, [(scene.id, scene)]⟩ : Project)
      = Except.ok (⟨pn, "Unknown", hash, [(sceneId 0, scene)]⟩ : Project)
    rw [hsid]
  · intro st hst
    obtain ⟨⟨i, hi⟩, heq⟩ := List.mem_iff_get.mp hst
    have := hinvS.2.2 i hi
    rw [heq] at this
    exact this

/-- C5: importing a legacy document with one animation whose actors all
list `S` stage events yields one scene with exactly `S` stages, each
holding one position per actor; the graph is a single linear chain: the
root is the first stage's id, stage `i`'s node has the single outgoing
edge to stage `i+1`'s id, and the last stage's node has an empty
destination list. -/
theorem from_slal_linear_chain
    (resolver : String → Except String String) (hash pn an : String)
    (actors : List (String × List String)) (S : Nat)
    (hS : 0 < S) (hA : actors ≠ [])
    (hgood : ∀ a ∈ actors,
      (a.1 = "male" ∨ a.1 = "female" ∨ a.1 = "type") ∧ a.2.length = S) :
    ∃ scene : Scene,
      fromSlal resolver hash (mkSlalDoc pn an actors)
        = .ok ⟨pn, "Unknown", hash, [(sceneId 0, scene)]⟩
      ∧ scene.stages.length = S
      ∧ scene.stages.map Stage.id = (List.range S).map stageId
      ∧ (∀ st ∈ scene.stages, st.positions.length = actors.length)
      ∧ scene.root = stageId 0
      ∧ scene.graph = (List.range S).map (fun i =>
          (stageId i, if i + 1 < S then (⟨[stageId (i + 1)]⟩ : Node)
            else (⟨[]⟩ : Node))) := by
  cases actors with
  | nil => exact absurd rfl hA
  | cons a0 rest =>
    exact from_slal_linear_chain_aux resolver hash pn an a0 rest S hS hgood

/-- Witness for C5 at the spec's fixture: one animation, two actors with
three stage events each — 3 stages of 2 positions and a 3-node chain. -/
theorem from_slal_linear_chain_witness :
    ∃ scene : Scene,
      fromSlal (fun _ => Except.error "") "HHHHHHHH"
          (mkSlalDoc "PN" "AN"
            [("male", ["a1", "b1", "c1"]), ("female", ["a2", "b2", "c2"])])
        = .ok ⟨"PN", "Unknown", "HHHHHHHH", [(sceneId 0, scene)]⟩
      ∧ scene.stages.length = 3
      ∧ scene.stages.map Stage.id = (List.range 3).map stageId
      ∧ (∀ st ∈ scene.stages, st.positions.length = 2)
      ∧ scene.root = stageId 0
      ∧ scene.graph = (List.range 3).map (fun i =>
          (stageId i, if i + 1 < 3 then (⟨[stageId (i + 1)]⟩ : Node)
            else (⟨[]⟩ : Node))) :=
  from_slal_linear_chain (fun _ => Except.error "") "HHHHHHHH" "PN" "AN"
    [("male", ["a1", "b1", "c1"]), ("female", ["a2", "b2", "c2"])] 3
    (by decide) (by decide) (by decide)

end SLSB
